import Mathlib

/-!
Shallow embedding of the `silly_rusty_kv` extendible-hashing key-value store
(`src/hash_storage.rs`, `src/wal.rs`, `src/execute.rs`, `src/command.rs`).

Modelling conventions:
* Machine integers (`u8`, `u16`, `u64`, `usize`) are `Nat` with explicit
  `% 2^w` truncation exactly where the Rust code truncates (`as` casts,
  `to_le_bytes`).  The build target is 64-bit, so `size_of::<usize>() = 8`.
* Byte sequences (`Vec<u8>`, file contents) are `List Nat` whose elements
  are below 256 in every state the program itself writes.
* Rust panics (`unwrap` on `None`/`Err`, out-of-bounds indexing,
  `read_exact` past end of file) are modelled as `Option.none`.
* The `put` split loop (`loop { ... }` in `HashStorage::put`) is modelled
  with an explicit fuel argument; `none` at every fuel means the loop does
  not terminate normally.
* The external hash function (`twox_hash::XxHash64` behind
  `hash_string_key`, a third-party crate, not part of this repository) is
  abstracted: storage-level operations receive the already-computed 64-bit
  hash, and the command layer is parametrised by `hashFn : List Nat → Nat`
  standing for XxHash64-with-seed-0 over the key's UTF-8 bytes.
-/

namespace SillyKV

/-- Number of bytes in a page (`PAGE_BYTES` in `hash_storage.rs`). -/
def PAGE_BYTES : Nat := 4096

/-- The length in bytes of a hash (`HASH_BYTES = size_of::<u64>()`). -/
def HASH_BYTES : Nat := 8

/-- The length in bytes of `BucketLevel` (`size_of::<u8>()`). -/
def BUCKET_LEVEL_BYTES : Nat := 1

/-- The length in bytes of `BucketIndexType` (`size_of::<usize>()` on the
64-bit build target). -/
def BUCKET_INDEX_TYPE_BYTES : Nat := 8

/-- The length of the bucket header in bytes (`BUCKET_HEADER_BYTES`). -/
def BUCKET_HEADER_BYTES : Nat := BUCKET_LEVEL_BYTES

/-- The length of the record header in bytes (`RECORD_HEADER_BYTES`). -/
def RECORD_HEADER_BYTES : Nat := 1

/-- The length in bytes of the key-length header (`RECORD_KEY_HEADER_BYTES =
size_of::<u16>()`). -/
def RECORD_KEY_HEADER_BYTES : Nat := 2

/-- The length in bytes of the value-length header
(`RECORD_VALUE_HEADER_BYTES = size_of::<u16>()`). -/
def RECORD_VALUE_HEADER_BYTES : Nat := 2

/-- The maximum length in bytes which a key and value pair can occupy in a
record (`MAX_RECORD_KEY_VALUE_BYTES`). -/
def MAX_RECORD_KEY_VALUE_BYTES : Nat :=
  PAGE_BYTES - BUCKET_HEADER_BYTES - RECORD_HEADER_BYTES - HASH_BYTES
    - RECORD_KEY_HEADER_BYTES - RECORD_VALUE_HEADER_BYTES

/-- Little-endian encoding of `v` into exactly `w` bytes, as Rust's
`to_le_bytes` on a `w`-byte unsigned integer (the value is implicitly
truncated to `2^(8*w)` by the byte extraction, exactly as the fixed-width
Rust type does). -/
def natToLeBytes : Nat → Nat → List Nat
  | 0, _ => []
  | w + 1, v => v % 256 :: natToLeBytes w (v / 256)

/-- Little-endian decoding of a byte list, as Rust's `from_le_bytes`. -/
def natFromLeBytes : List Nat → Nat
  | [] => 0
  | b :: bs => b + 256 * natFromLeBytes bs

/-- Splits off exactly `n` leading bytes, or fails.  This models
`take_bytes_from_iterator`, which calls `next().unwrap()` `n` times and
panics when the iterator is exhausted. -/
def takeExact (n : Nat) (l : List Nat) : Option (List Nat × List Nat) :=
  if n ≤ l.length then some (l.take n, l.drop n) else none

/-- The record stored in the database: `Record(Hash, Vec<u8>, Vec<u8>)`
from `hash_storage.rs` — the pre-computed 64-bit hash, the key bytes and
the value bytes. -/
structure Record where
  hash : Nat
  key : List Nat
  value : List Nat
deriving DecidableEq

/-- Serialized size of a record (`impl ByteLength for Record`). -/
def Record.byte_len (r : Record) : Nat :=
  RECORD_HEADER_BYTES + HASH_BYTES + RECORD_KEY_HEADER_BYTES + r.key.length
    + RECORD_VALUE_HEADER_BYTES + r.value.length

/-- Serialization of a record (`impl IntoBytes for Record`): presence byte
`RECORD_HEADER = 1`, 8-byte LE hash, 2-byte LE key length (`len() as u16`),
key bytes, 2-byte LE value length, value bytes. -/
def Record.into_bytes (r : Record) : List Nat :=
  [1] ++ natToLeBytes HASH_BYTES r.hash
      ++ natToLeBytes RECORD_KEY_HEADER_BYTES r.key.length
      ++ r.key
      ++ natToLeBytes RECORD_VALUE_HEADER_BYTES r.value.length
      ++ r.value

/-- Deserialization of a record (`impl ParseFromBytes for Record`),
returning the record and the unconsumed rest of the input.  `none` covers
both the `Err(())` on a presence byte ≠ 1 and the panics of
`take_bytes_from_iterator` on exhausted input. -/
def Record.from_bytes (bytes : List Nat) : Option (Record × List Nat) :=
  match takeExact RECORD_HEADER_BYTES bytes with
  | none => none
  | some (headerB, bytes) =>
    if natFromLeBytes headerB ≠ 1 then none
    else
      match takeExact HASH_BYTES bytes with
      | none => none
      | some (hashB, bytes) =>
        match takeExact RECORD_KEY_HEADER_BYTES bytes with
        | none => none
        | some (keyLenB, bytes) =>
          let keyLen := natFromLeBytes keyLenB
          let key := bytes.take keyLen
          let bytes := bytes.drop keyLen
          match takeExact RECORD_VALUE_HEADER_BYTES bytes with
          | none => none
          | some (valLenB, bytes) =>
            let valLen := natFromLeBytes valLenB
            some (⟨natFromLeBytes hashB, key, bytes.take valLen⟩,
                  bytes.drop valLen)

theorem natToLeBytes_length (w v : Nat) : (natToLeBytes w v).length = w := by
  induction w generalizing v with
  | zero => rfl
  | succ w ih => simp [natToLeBytes, ih]

theorem natFromLeBytes_natToLeBytes (w v : Nat) (h : v < 256 ^ w) :
    natFromLeBytes (natToLeBytes w v) = v := by
  induction w generalizing v with
  | zero =>
    simp [natToLeBytes, natFromLeBytes]
    omega
  | succ w ih =>
    have hdiv : v / 256 < 256 ^ w := by
      rw [Nat.div_lt_iff_lt_mul (by norm_num)]
      calc v < 256 ^ (w + 1) := h
        _ = 256 ^ w * 256 := by ring
    simp only [natToLeBytes, natFromLeBytes, ih _ hdiv]
    omega

theorem takeExact_append (l rest : List Nat) :
    takeExact l.length (l ++ rest) = some (l, rest) := by
  simp [takeExact, List.take_left, List.drop_left]

theorem takeExact_append_of_length (n : Nat) (l rest : List Nat)
    (h : l.length = n) : takeExact n (l ++ rest) = some (l, rest) :=
  h ▸ takeExact_append l rest

theorem Record.from_bytes_append (r : Record) (rest : List Nat)
    (hh : r.hash < 2 ^ 64) (hk : r.key.length < 2 ^ 16)
    (hv : r.value.length < 2 ^ 16) :
    Record.from_bytes (r.into_bytes ++ rest) = some (r, rest) := by
  obtain ⟨h, k, v⟩ := r
  have hh' : h < 256 ^ HASH_BYTES := by norm_num [HASH_BYTES] at hh ⊢; omega
  have hk' : k.length < 256 ^ RECORD_KEY_HEADER_BYTES := by
    norm_num [RECORD_KEY_HEADER_BYTES] at hk ⊢; omega
  have hv' : v.length < 256 ^ RECORD_VALUE_HEADER_BYTES := by
    norm_num [RECORD_VALUE_HEADER_BYTES] at hv ⊢; omega
  simp only [Record.into_bytes, List.append_assoc]
  unfold Record.from_bytes
  rw [takeExact_append_of_length RECORD_HEADER_BYTES [1] _ rfl]
  simp only [natFromLeBytes]
  norm_num
  rw [takeExact_append_of_length HASH_BYTES _ _ (natToLeBytes_length _ _)]
  simp only []
  rw [takeExact_append_of_length RECORD_KEY_HEADER_BYTES _ _
    (natToLeBytes_length _ _)]
  simp only [natFromLeBytes_natToLeBytes _ _ hh',
    natFromLeBytes_natToLeBytes _ _ hk', List.take_left, List.drop_left]
  rw [takeExact_append_of_length RECORD_VALUE_HEADER_BYTES _ _
    (natToLeBytes_length _ _)]
  simp only [natFromLeBytes_natToLeBytes _ _ hv', List.take_left,
    List.drop_left]

/-- C7: for every record whose key and value lengths fit in a `u16` (and
whose hash is a 64-bit value, as the `u64` type guarantees in Rust),
`Record::into_bytes` produces exactly the documented layout — presence byte
`0x01`, LE `u64` hash, LE `u16` key length, key bytes, LE `u16` value
length, value bytes — of total length `13 + Lk + Lv = byte_len`, and
`Record::from_bytes` decodes the encoding back to the original record with
no bytes left over. -/
theorem record_codec_roundtrip (r : Record)
    (hh : r.hash < 2 ^ 64) (hk : r.key.length < 2 ^ 16)
    (hv : r.value.length < 2 ^ 16) :
    r.into_bytes = [1] ++ natToLeBytes 8 r.hash
        ++ natToLeBytes 2 r.key.length ++ r.key
        ++ natToLeBytes 2 r.value.length ++ r.value ∧
    r.into_bytes.length = r.byte_len ∧
    r.byte_len = 13 + r.key.length + r.value.length ∧
    Record.from_bytes r.into_bytes = some (r, []) := by
  refine ⟨rfl, ?_, ?_, ?_⟩
  · simp [Record.into_bytes, Record.byte_len, natToLeBytes_length,
      RECORD_HEADER_BYTES, HASH_BYTES, RECORD_KEY_HEADER_BYTES,
      RECORD_VALUE_HEADER_BYTES]
    omega
  · simp [Record.byte_len, RECORD_HEADER_BYTES, HASH_BYTES,
      RECORD_KEY_HEADER_BYTES, RECORD_VALUE_HEADER_BYTES]
    omega
  · have := Record.from_bytes_append r [] hh hk hv
    simpa using this

/-- Witness for `record_codec_roundtrip` at the concrete record
`(hash 3, key [1, 2], value [4])`. -/
theorem record_codec_roundtrip_witness :
    (⟨3, [1, 2], [4]⟩ : Record).into_bytes =
        [1] ++ natToLeBytes 8 3 ++ natToLeBytes 2 2 ++ [1, 2]
          ++ natToLeBytes 2 1 ++ [4] ∧
    (⟨3, [1, 2], [4]⟩ : Record).into_bytes.length =
        (⟨3, [1, 2], [4]⟩ : Record).byte_len ∧
    (⟨3, [1, 2], [4]⟩ : Record).byte_len = 13 + 2 + 1 ∧
    Record.from_bytes (⟨3, [1, 2], [4]⟩ : Record).into_bytes =
        some (⟨3, [1, 2], [4]⟩, []) := by
  have h := record_codec_roundtrip ⟨3, [1, 2], [4]⟩ (by norm_num)
    (by norm_num) (by norm_num)
  simpa using h

/-! ## Buckets and the in-memory hash engine

The buckets file is modelled at the granularity the engine itself uses:
a list of pages, page `k` (the parsed bucket at byte offset
`BUCKET_INDEX_TYPE_BYTES + k * PAGE_BYTES`) at list position `k`.  A page
stores a local level and packed records; `remaining_byte_space` and
`bucket_index` are not persisted — `Bucket::read_from_file` re-derives
them, which `readBucket` mirrors.  The byte-exact page and header layout
is modelled separately further below for the persistence claims. -/

/-- Rust representation of a bucket (`struct Bucket` in `hash_storage.rs`). -/
structure Bucket where
  bucket_index : Nat
  level : Nat
  remaining_byte_space : Nat
  records : List Record
deriving DecidableEq

/-- `Bucket::update_remaining_byte_count`.  The Rust `usize` subtraction
panics on underflow in debug builds; `Nat` subtraction truncates, and the
two agree on every state where the records fit in the page. -/
def Bucket.update_remaining_byte_count (b : Bucket) : Bucket :=
  { b with remaining_byte_space :=
      PAGE_BYTES - BUCKET_HEADER_BYTES - (b.records.map Record.byte_len).sum }

/-- The hash storage engine state (`struct HashStorage`), with the buckets
file abstracted as the list of its parsed pages. -/
structure HashStorage where
  bucket_count : Nat
  global_level : Nat
  bucket_lookup : List Nat
  buckets : List Bucket
deriving DecidableEq

/-- `HashStorage::hash_to_remainder`: `hash % 2^global_level`.  (Rust
computes `2_u64.pow(global_level)`, which is exact for every reachable
global level below 64.) -/
def HashStorage.hash_to_remainder (s : HashStorage) (hash : Nat) : Nat :=
  hash % 2 ^ s.global_level

/-- `Bucket::read_from_file`: fetch page `idx`, re-deriving
`remaining_byte_space` and `bucket_index` as the parser does; `none` when
the page does not exist (Rust's `read_exact` would panic). -/
def HashStorage.readBucket (s : HashStorage) (idx : Nat) : Option Bucket :=
  (s.buckets.get? idx).map fun b =>
    Bucket.update_remaining_byte_count ⟨idx, b.level, 0, b.records⟩

/-- `Bucket::save_to_file`: write the bucket's page at its
`bucket_index`.  Writing past the current end of the file leaves
zero-filled gap pages, which parse as empty level-0 buckets. -/
def HashStorage.saveBucket (s : HashStorage) (b : Bucket) : HashStorage :=
  { s with buckets :=
      if b.bucket_index < s.buckets.length then
        s.buckets.set b.bucket_index b
      else
        s.buckets
          ++ List.replicate (b.bucket_index - s.buckets.length)
            (Bucket.mk 0 0 0 [])
          ++ [b] }

/-- The per-record test of `HashStorage::put`'s
`find(|x| x.0 == record.0 && x.1 == record.1)`. -/
def recordMatches (r x : Record) : Bool :=
  x.hash == r.hash && x.key == r.key

/-- In-place value overwrite of the record found by `iter_mut().find`:
the first record with matching hash and key gets the new value. -/
def replaceValue : List Record → Record → List Record
  | [], _ => []
  | x :: xs, r =>
    if recordMatches r x then { x with value := r.value } :: xs
    else x :: replaceValue xs r

/-- The bucket-split tail of the `loop` body in `HashStorage::put`:
redistribute the records by `hash % 2^(level+1) > og_remainder`, save both
halves, fix up the directory (local split) or double it (global split),
and pick the half the inserted record now belongs to.  Returns the updated
engine state and the bucket the loop continues with. -/
def putSplit (s : HashStorage) (bucket : Bucket) (record : Record) :
    HashStorage × Bucket :=
  let og := s.hash_to_remainder record.hash % 2 ^ bucket.level
  let newLevel := bucket.level + 1
  let parts := bucket.records.foldl
    (fun p x =>
      if x.hash % 2 ^ newLevel > og then (p.1, p.2 ++ [x])
      else (p.1 ++ [x], p.2))
    (([], []) : List Record × List Record)
  let bucket := Bucket.update_remaining_byte_count
    { bucket with level := newLevel, records := parts.1 }
  let new_bucket_index := s.bucket_count
  let new_bucket := Bucket.update_remaining_byte_count
    (Bucket.mk new_bucket_index newLevel 0 parts.2)
  let s := (s.saveBucket bucket).saveBucket new_bucket
  let s := { s with bucket_count := s.bucket_count + 1 }
  let s :=
    if newLevel ≤ s.global_level then
      -- local split: redirect the lookup entries of the old bucket
      -- whose remainder at the new level exceeds the original one
      { s with bucket_lookup := s.bucket_lookup.mapIdx fun i v =>
          if v = bucket.bucket_index ∧ i % 2 ^ newLevel > og then
            new_bucket_index
          else v }
    else
      -- global split: double the directory, patch the new half, bump G
      let doubled := s.bucket_lookup ++ s.bucket_lookup
      { s with
          bucket_lookup :=
            doubled.set (s.bucket_lookup.length + og) new_bucket_index,
          global_level := s.global_level + 1 }
  let bucket :=
    if record.hash % 2 ^ newLevel > og then new_bucket else bucket
  (s, bucket)

/-- One pass of the `loop` in `HashStorage::put`, with fuel; `none` means
the loop did not finish within the given fuel.  Mirrors the source step by
step: try the in-place overwrite, then the plain append, otherwise run
`putSplit` and retry. -/
def putLoop : Nat → HashStorage → Bucket → Record → Option HashStorage
  | 0, _, _, _ => none
  | fuel + 1, s, bucket, record =>
    match bucket.records.find? (recordMatches record) with
    | some existing =>
      if existing.value.length ≥ record.value.length ∨
          record.value.length - existing.value.length ≤
            bucket.remaining_byte_space then
        let bucket := Bucket.update_remaining_byte_count
          { bucket with records := replaceValue bucket.records record }
        some (s.saveBucket bucket)
      else
        let p := putSplit s bucket record
        putLoop fuel p.1 p.2 record
    | none =>
      if bucket.remaining_byte_space ≥ record.byte_len then
        let bucket := Bucket.update_remaining_byte_count
          { bucket with records := bucket.records ++ [record] }
        some (s.saveBucket bucket)
      else
        let p := putSplit s bucket record
        putLoop fuel p.1 p.2 record

/-- `HashStorage::put`: locate the bucket through the directory, load it
and run the split loop.  `none` covers an out-of-range directory index
(Rust panic) and loop non-termination. -/
def HashStorage.put (fuel : Nat) (s : HashStorage) (record : Record) :
    Option HashStorage :=
  match s.bucket_lookup.get? (s.hash_to_remainder record.hash) with
  | none => none
  | some bIdx =>
    match s.readBucket bIdx with
    | none => none
    | some bucket => putLoop fuel s bucket record

/-- `HashStorage::get`: the value of the first record in the addressed
bucket whose hash and key both match. -/
def HashStorage.get (s : HashStorage) (hash : Nat) (key : List Nat) :
    Option (Option (List Nat)) :=
  (s.bucket_lookup.get? (s.hash_to_remainder hash)).bind fun bIdx =>
    (s.readBucket bIdx).map fun bucket =>
      (bucket.records.find? fun x => x.hash == hash && x.key == key).map
        Record.value

/-- `HashStorage::delete`: load the addressed bucket, keep the records
satisfying `x.0 != hash && x.1 != key`, and rewrite the page.  The hash
argument is `hash_string_key(key)` computed by the caller (the XxHash64
call is abstracted, see the header comment). -/
def HashStorage.delete (s : HashStorage) (hash : Nat) (key : List Nat) :
    Option HashStorage :=
  (s.bucket_lookup.get? (s.hash_to_remainder hash)).bind fun bIdx =>
    (s.readBucket bIdx).map fun bucket =>
      s.saveBucket <| Bucket.update_remaining_byte_count
        { bucket with records :=
            bucket.records.filter fun x => x.hash != hash && x.key != key }

/-! ## The S3 global-split scenario (claim C5)

The preloaded state of the `global_split` test in `hash_storage.rs`:
bucket 0 at local level 1 holding one record of total encoded size 4000
bytes (`record_from_size(0b1010, 1, 1, 4000)`, i.e. a 1-byte key and a
3986-byte value) and hash `0b1010`; bucket 1 at level 1 empty; directory
`[0, 1]`; global level 1; bucket count 2.  The big values are kept behind
definitions so proofs reason about their lengths only. -/

/-- The 3986-byte value of the preloaded record. -/
def bigValue1 : List Nat := List.replicate 3986 1

/-- The 3986-byte value of the inserted record. -/
def bigValue2 : List Nat := List.replicate 3986 2

/-- The preloaded record: hash `0b1010`, key `[1]`, 3986-byte value. -/
def s3OldRecord : Record := ⟨10, [1], bigValue1⟩

/-- The inserted record: hash `0b1110`, key `[2]`, 3986-byte value. -/
def s3NewRecord : Record := ⟨14, [2], bigValue2⟩

/-- The preloaded engine state of scenario S3. -/
def s3Start : HashStorage :=
  ⟨2, 1, [0, 1], [Bucket.mk 0 1 0 [s3OldRecord], Bucket.mk 1 1 0 []]⟩

theorem s3OldRecord_hash : s3OldRecord.hash = 10 := rfl

theorem s3NewRecord_hash : s3NewRecord.hash = 14 := rfl

theorem s3OldRecord_key : s3OldRecord.key = [1] := rfl

theorem s3NewRecord_key : s3NewRecord.key = [2] := rfl

theorem bigValue1_length : bigValue1.length = 3986 := by
  unfold bigValue1
  exact List.length_replicate ..

theorem bigValue2_length : bigValue2.length = 3986 := by
  unfold bigValue2
  exact List.length_replicate ..

theorem s3OldRecord_byte_len : s3OldRecord.byte_len = 4000 := by
  have hv : s3OldRecord.value.length = 3986 := bigValue1_length
  have hk : s3OldRecord.key.length = 1 := rfl
  unfold Record.byte_len
  rw [hv, hk]
  rfl

theorem s3NewRecord_byte_len : s3NewRecord.byte_len = 4000 := by
  have hv : s3NewRecord.value.length = 3986 := bigValue2_length
  have hk : s3NewRecord.key.length = 1 := rfl
  unfold Record.byte_len
  rw [hv, hk]
  rfl

/-- C5: from the S3 start state (bucket 0 at level 1 holding one
4000-byte record of hash `0b1010`, bucket 1 at level 1 empty, directory
`[0,1]`, global level 1, bucket count 2), inserting a 4000-byte record
with hash `0b1110` runs the split loop through two consecutive global
splits (three loop iterations, so fuel 5 suffices) and yields global
level 3, bucket count 4, directory `[0,1,2,1,0,1,3,1]`, the old record in
bucket 2 at level 3 and the new record in bucket 3 at level 3. -/
theorem global_split_scenario_s3 :
    ((s3Start.put 5 s3NewRecord).map fun s =>
      (s.global_level, s.bucket_count, s.bucket_lookup)) =
        some (3, 4, [0, 1, 2, 1, 0, 1, 3, 1]) ∧
    (((s3Start.put 5 s3NewRecord).bind fun s => s.readBucket 2).map
      fun b => (b.level, b.records)) = some (3, [s3OldRecord]) ∧
    (((s3Start.put 5 s3NewRecord).bind fun s => s.readBucket 3).map
      fun b => (b.level, b.records)) = some (3, [s3NewRecord]) := by
  refine ⟨?_, ?_, ?_⟩ <;>
  simp [HashStorage.put, HashStorage.hash_to_remainder, HashStorage.readBucket,
    putLoop, putSplit, HashStorage.saveBucket,
    Bucket.update_remaining_byte_count, recordMatches, replaceValue, s3Start,
    s3OldRecord_hash, s3NewRecord_hash, s3OldRecord_key, s3NewRecord_key,
    s3OldRecord_byte_len, s3NewRecord_byte_len,
    PAGE_BYTES, BUCKET_HEADER_BYTES, BUCKET_LEVEL_BYTES]

/-! ## Oversized records and the split loop (claim C3)

`HashStorage::put` has no error path at all — its result type is
`Result<(), ()>` and it never returns `Err`; there is no `OversizedRecord`
value anywhere in the repository.  For a record that cannot fit in an
empty bucket the split loop never exits: every iteration splits an empty
bucket into two empty buckets and retries.  (In Rust the `u8` local level
additionally overflows after 255 iterations, a panic in debug builds.) -/

/-- Splitting a bucket with no records leaves the loop's continuation
bucket with no records and with the full page capacity recorded as
remaining space. -/
theorem putSplit_of_empty (s : HashStorage) (b : Bucket) (r : Record)
    (h : b.records = []) :
    (putSplit s b r).2.records = [] ∧
    (putSplit s b r).2.remaining_byte_space =
      PAGE_BYTES - BUCKET_HEADER_BYTES := by
  unfold putSplit
  simp only [h, List.foldl_nil]
  split <;> simp [Bucket.update_remaining_byte_count]

/-- For a record larger than a page's record capacity, the split loop
starting from a bucket with no records returns `none` at every fuel: it
never terminates (and in particular never produces an error value —
the loop has no error path). -/
theorem putLoop_oversized_none (r : Record)
    (hr : PAGE_BYTES - BUCKET_HEADER_BYTES < r.byte_len) :
    ∀ fuel (s : HashStorage) (b : Bucket), b.records = [] →
      b.remaining_byte_space ≤ PAGE_BYTES - BUCKET_HEADER_BYTES →
      putLoop fuel s b r = none := by
  intro fuel
  induction fuel with
  | zero => intro s b _ _; rfl
  | succ n ih =>
    intro s b hrec hrem
    have hsplit := putSplit_of_empty s b r hrec
    show putLoop (n + 1) s b r = none
    unfold putLoop
    rw [hrec]
    simp only [List.find?_nil]
    rw [if_neg (by omega)]
    exact ih _ _ hsplit.1 (le_of_eq hsplit.2)

/-- The state of a freshly initialized database (both files empty):
`load_directory` yields directory `[0]` and global level 0,
`load_buckets_file` writes one empty bucket and yields bucket count 1. -/
def freshEngine : HashStorage := ⟨1, 0, [0], [Bucket.mk 0 0 0 []]⟩

/-- A 4083-byte value, so that key plus value exceed
`MAX_RECORD_KEY_VALUE_BYTES = 4082`. -/
def oversizedValue : List Nat := List.replicate 4083 0

/-- An oversized record: 1-byte key plus 4083-byte value. -/
def oversizedRecord : Record := ⟨0, [1], oversizedValue⟩

theorem oversizedValue_length : oversizedValue.length = 4083 := by
  unfold oversizedValue
  exact List.length_replicate ..

theorem oversizedRecord_byte_len : oversizedRecord.byte_len = 4097 := by
  have hv : oversizedRecord.value.length = 4083 := oversizedValue_length
  have hk : oversizedRecord.key.length = 1 := rfl
  unfold Record.byte_len
  rw [hv, hk]
  rfl

/-- C3 (code bug): the inserted record's key plus value exceed the
4082-byte single-bucket maximum, yet `put` does not stop after a bounded
number of split iterations with an `OversizedRecord` error — no such error
exists in the code — but splits indefinitely: for every fuel the split
loop fails to terminate (`none`). -/
theorem put_oversized_splits_forever :
    MAX_RECORD_KEY_VALUE_BYTES = 4082 ∧
    oversizedRecord.key.length + oversizedRecord.value.length >
      MAX_RECORD_KEY_VALUE_BYTES ∧
    ∀ fuel, freshEngine.put fuel oversizedRecord = none := by
  refine ⟨rfl, ?_, ?_⟩
  · have hv : oversizedRecord.value.length = 4083 := oversizedValue_length
    have hk : oversizedRecord.key.length = 1 := rfl
    rw [hv, hk]
    decide
  · intro fuel
    show putLoop fuel freshEngine
      (Bucket.update_remaining_byte_count ⟨0, 0, 0, []⟩) oversizedRecord
        = none
    apply putLoop_oversized_none
    · rw [oversizedRecord_byte_len]
      decide
    · rfl
    · simp [Bucket.update_remaining_byte_count]

/-! ## Delete (claim C1)

The retention predicate of `HashStorage::delete` is
`x.0 != hash && x.1 != key`: a record is kept only when its hash AND its
key both differ — a record agreeing on just one of the two is removed.
The spec's reading (“retain records whose `(hash, key)` do not *both*
match”, i.e. keep records agreeing on only one side) is refuted on a
bucket holding a record with the deleted key's hash but another key. -/

/-- A one-bucket state whose sole record has hash 5 and key `[2]`. -/
def c1State : HashStorage := ⟨1, 0, [0], [Bucket.mk 0 0 0 [⟨5, [2], []⟩]]⟩

/-- C1 counterexample: deleting key `[1]` whose hash is 5 from `c1State`.
The stored record matches on hash only (`5 = 5`, `[2] ≠ [1]`), so under
the claim's retention predicate (keep unless both match) it would be
retained — second conjunct — but the code's delete removes it, leaving the
bucket empty — first conjunct. -/
theorem delete_only_hash_matches_removed :
    ((c1State.delete 5 [1]).bind fun s' =>
      (s'.readBucket 0).map Bucket.records) = some [] ∧
    ([(⟨5, [2], []⟩ : Record)].filter fun x =>
      !(x.hash == 5 && x.key == [1])) = [⟨5, [2], []⟩] := by
  decide

/-- C1 (amended): `delete` locates the bucket via the hash of the key and
keeps exactly the records whose hash AND key both differ (records
matching on either component alone are removed too), rewrites that page
in place, and leaves the directory, the global level, the bucket count,
the number of bucket pages and every other page unchanged — buckets are
never merged or freed. -/
theorem delete_spec (s : HashStorage) (hash : Nat) (key : List Nat)
    (bIdx : Nat) (b : Bucket)
    (h1 : s.bucket_lookup.get? (s.hash_to_remainder hash) = some bIdx)
    (h2 : s.readBucket bIdx = some b) :
    ∃ s', s.delete hash key = some s' ∧
      s'.bucket_lookup = s.bucket_lookup ∧
      s'.global_level = s.global_level ∧
      s'.bucket_count = s.bucket_count ∧
      s'.buckets.length = s.buckets.length ∧
      (s'.readBucket bIdx).map Bucket.records =
        some (b.records.filter fun x => x.hash != hash && x.key != key) ∧
      ∀ j, j ≠ bIdx → s'.buckets.get? j = s.buckets.get? j := by
  obtain ⟨b0, hb0, hbeq⟩ :
      ∃ b0, s.buckets.get? bIdx = some b0 ∧
        Bucket.update_remaining_byte_count ⟨bIdx, b0.level, 0, b0.records⟩
          = b := by
    unfold HashStorage.readBucket at h2
    cases hg : s.buckets.get? bIdx with
    | none => rw [hg] at h2; exact absurd h2 (by simp)
    | some b0 =>
      rw [hg] at h2
      exact ⟨b0, rfl, by simpa using h2⟩
  have hlt : bIdx < s.buckets.length := List.get?_eq_some.mp hb0 |>.1
  have hidx : b.bucket_index = bIdx := by
    rw [← hbeq]; rfl
  refine ⟨s.saveBucket <| Bucket.update_remaining_byte_count
    { b with records :=
        b.records.filter fun x => x.hash != hash && x.key != key },
    ?_, rfl, rfl, rfl, ?_, ?_, ?_⟩
  · unfold HashStorage.delete
    rw [h1]
    simp only [Option.some_bind]
    rw [h2]
    rfl
  · simp [HashStorage.saveBucket, Bucket.update_remaining_byte_count, hidx,
      hlt]
  · simp [HashStorage.saveBucket, HashStorage.readBucket,
      Bucket.update_remaining_byte_count, hidx, hlt, List.get?_eq_getElem?,
      List.getElem?_set_self']
  · intro j hj
    simp [HashStorage.saveBucket, Bucket.update_remaining_byte_count, hidx,
      hlt, List.get?_eq_getElem?, List.getElem?_set_ne (Ne.symm hj)]

/-- Witness for `delete_spec` at `c1State`, hash 5, key `[1]`. -/
theorem delete_spec_witness :
    ∃ s', c1State.delete 5 [1] = some s' ∧
      s'.bucket_lookup = c1State.bucket_lookup ∧
      s'.global_level = c1State.global_level ∧
      s'.bucket_count = c1State.bucket_count ∧
      s'.buckets.length = c1State.buckets.length ∧
      (s'.readBucket 0).map Bucket.records =
        some ((Bucket.mk 0 0 4081 [⟨5, [2], []⟩]).records.filter fun x =>
          x.hash != 5 && x.key != [1]) ∧
      ∀ j, j ≠ 0 → s'.buckets.get? j = c1State.buckets.get? j :=
  delete_spec c1State 5 [1] 0 (Bucket.mk 0 0 4081 [⟨5, [2], []⟩])
    (by rfl) (by decide)

/-! ## The transactional WAL (`src/wal.rs`) and the command layer

`Wal.data: HashMap<String, Vec<Mutation>>` is modelled as an association
list without duplicate keys; the map operations used by the source
(`get`, `get_mut`, `insert` of a fresh key, `remove`) are mirrored on it.
A transaction's mutation list is in staging order: `Wal::mutate` pushes at
the end, so the newest mutation is last. -/

/-- A staged mutation (`enum Mutation` in `command.rs`, with the
`PutCommand`/`DeleteCommand` payloads inlined). -/
inductive Mutation where
  | Put (key value : String)
  | Delete (key : String)
deriving DecidableEq

/-- The WAL map: transaction id to staged mutations, oldest first. -/
abbrev WalMap := List (String × List Mutation)

/-- `HashMap::get` on the WAL map. -/
def walFind (w : WalMap) (tid : String) : Option (List Mutation) :=
  (w.find? fun p => p.1 == tid).map Prod.snd

/-- `Wal::begin` with the freshly generated UUID passed in (the `uuid`
crate is external): insert an empty mutation list under the new key and
return it. -/
def walBegin (w : WalMap) (freshId : String) : String × WalMap :=
  (freshId, (freshId, []) :: w)

/-- The `for m in ms` scan of `Wal::get`: walk the mutation list in
storage order — oldest first — and return at the FIRST mutation naming
the key. -/
def walScan : List Mutation → String → Option (Option String)
  | [], _ => none
  | .Put k v :: rest, key =>
    if k == key then some (some v) else walScan rest key
  | .Delete k :: rest, key =>
    if k == key then some none else walScan rest key

/-- `Wal::get`: `Some(Some v)` / `Some(None)` from the first mutation of
the transaction's list (oldest first) naming the key, `None` when the
transaction is unknown or no mutation names the key. -/
def walGet (w : WalMap) (tid : String) (key : String) :
    Option (Option String) :=
  match walFind w tid with
  | some ms => walScan ms key
  | none => none

/-- `HashMap::get_mut` followed by `Vec::push`: append `m` to the list
stored under `tid`; `none` when `tid` is absent. -/
def walPush : WalMap → String → Mutation → Option WalMap
  | [], _, _ => none
  | (k, ms) :: rest, tid, m =>
    if k == tid then some ((k, ms ++ [m]) :: rest)
    else (walPush rest tid m).map fun w => (k, ms) :: w

/-- `Wal::mutate`: `Ok` with the updated map, or `Err(())` — leaving the
map unchanged — when the transaction id is unknown. -/
def walMutate (w : WalMap) (tid : String) (m : Mutation) :
    Except Unit WalMap :=
  match walPush w tid m with
  | some w2 => .ok w2
  | none => .error ()

/-- `Wal::retrieve_mutations` (`HashMap::remove`): take out the entry and
return its mutation list together with the map without it. -/
def walRemove : WalMap → String → Option (List Mutation × WalMap)
  | [], _ => none
  | (k, ms) :: rest, tid =>
    if k == tid then some (ms, rest)
    else (walRemove rest tid).map fun p => (p.1, (k, ms) :: p.2)

/-- The command outputs (`enum CommandOutput`). -/
inductive CommandOutput where
  | Found (value : String)
  | NotFound (key : String)
  | Put
  | Delete
  | Begin (tid : String)
  | Commit
  | Rollback
  | Exit
deriving DecidableEq

/-- User-level commands (`enum UserCommand`). -/
inductive UserCommand where
  | Get (key : String)
  | Put (key value : String)
  | Delete (key : String)
  | Exit
  | Begin
  | Commit
  | Rollback
deriving DecidableEq

/-- UTF-8 bytes of a string (`String::into_bytes` / `str::as_bytes`). -/
def keyBytes (s : String) : List Nat :=
  s.toUTF8.toList.map UInt8.toNat

/-- Decode bytes back to a string (`String::from_utf8`); `none` is the
`unwrap` panic on invalid UTF-8. -/
def bytesToString (l : List Nat) : Option String :=
  String.fromUTF8? (ByteArray.mk (l.map UInt8.ofNat).toArray)

/-- `HashStorage::handle_cmd` for the four storage commands, parametrised
by the abstracted hash function and the split-loop fuel.  `Flush` (the
`EXIT` path) saves the directory and the bucket count to disk and fsyncs;
the in-memory engine state is unchanged (the byte-level file writes are
modelled separately below). -/
def HashStorage.handle_cmd (hashFn : List Nat → Nat) (fuel : Nat)
    (s : HashStorage) :
    UserCommand → Option (Except String CommandOutput × HashStorage)
  | .Put k v =>
    (s.put fuel ⟨hashFn (keyBytes k), keyBytes k, keyBytes v⟩).map
      fun s2 => (.ok .Put, s2)
  | .Delete k =>
    (s.delete (hashFn (keyBytes k)) (keyBytes k)).map
      fun s2 => (.ok .Delete, s2)
  | .Get k =>
    (s.get (hashFn (keyBytes k)) (keyBytes k)).bind fun res =>
      match res with
      | some bytes => (bytesToString bytes).map fun v => (.ok (.Found v), s)
      | none => some (.ok (.NotFound k), s)
  | _ => some (.ok .Exit, s)

/-- Apply a committed transaction's mutations to the engine in staging
order (the `for m in muts` loop of the `Commit` arm), propagating a
storage error (`?`) with the partially updated state. -/
def applyMutations (hashFn : List Nat → Nat) (fuel : Nat) :
    HashStorage → List Mutation →
      Option (Except String Unit × HashStorage)
  | s, [] => some (.ok (), s)
  | s, m :: rest =>
    let cmd := match m with
      | .Put k v => UserCommand.Put k v
      | .Delete k => UserCommand.Delete k
    match s.handle_cmd hashFn fuel cmd with
    | none => none
    | some (.error e, s2) => some (.error e, s2)
    | some (.ok _, s2) => applyMutations hashFn fuel s2 rest

/-- The second `match` of `execute_command` (reached when no transaction
is active, when the active-transaction branch does not intercept the
command, or when a GET inside a transaction found nothing in the WAL). -/
def executeEngine (hashFn : List Nat → Nat) (fuel : Nat)
    (freshId : String) (s : HashStorage) (w : WalMap)
    (tid : Option String) :
    UserCommand →
      Option (Except String CommandOutput × HashStorage × WalMap)
  | .Get k => (s.handle_cmd hashFn fuel (.Get k)).map
      fun p => (p.1, p.2, w)
  | .Put k v => (s.handle_cmd hashFn fuel (.Put k v)).map
      fun p => (p.1, p.2, w)
  | .Delete k => (s.handle_cmd hashFn fuel (.Delete k)).map
      fun p => (p.1, p.2, w)
  | .Exit => (s.handle_cmd hashFn fuel .Exit).map
      fun p => (p.1, p.2, w)
  | .Begin =>
    let p := walBegin w freshId
    some (.ok (.Begin p.1), s, p.2)
  | .Commit =>
    match walRemove w (tid.getD "") with
    | none => some (.error "Not in a transaction", s, w)
    | some (muts, w2) =>
      match applyMutations hashFn fuel s muts with
      | none => none
      | some (.error e, s2) => some (.error e, s2, w2)
      | some (.ok _, s2) => some (.ok .Commit, s2, w2)
  | .Rollback =>
    match walRemove w (tid.getD "") with
    | none => some (.error "Not in a transaction", s, w)
    | some (_, w2) => some (.ok .Rollback, s, w2)

/-- `execute_command` from `execute.rs`: route through the WAL when a
transaction id is active, otherwise (or for the remaining commands) hit
the engine.  Returns the command result together with the engine and WAL
states; `freshId` stands for the UUID `Wal::begin` would generate. -/
def executeCommand (hashFn : List Nat → Nat) (fuel : Nat)
    (freshId : String) (s : HashStorage) (w : WalMap)
    (tid : Option String) (cmd : UserCommand) :
    Option (Except String CommandOutput × HashStorage × WalMap) :=
  match tid with
  | some id =>
    match cmd with
    | .Get k =>
      match walGet w id k with
      | some (some v) => some (.ok (.Found v), s, w)
      | some none => some (.ok (.NotFound k), s, w)
      | none => executeEngine hashFn fuel freshId s w tid (.Get k)
    | .Put k v =>
      match walMutate w id (.Put k v) with
      | .ok w2 => some (.ok .Put, s, w2)
      | .error _ => none
    | .Delete k =>
      match walMutate w id (.Delete k) with
      | .ok w2 => some (.ok .Delete, s, w2)
      | .error _ => none
    | _ => executeEngine hashFn fuel freshId s w tid cmd
  | none => executeEngine hashFn fuel freshId s w tid cmd

theorem walFind_cons_pos {k tid : String} (hk : (k == tid) = true)
    (ms : List Mutation) (rest : WalMap) :
    walFind ((k, ms) :: rest) tid = some ms := by
  simp [walFind, List.find?_cons, hk]

theorem walFind_cons_neg {k tid : String} (hk : (k == tid) = false)
    (ms : List Mutation) (rest : WalMap) :
    walFind ((k, ms) :: rest) tid = walFind rest tid := by
  simp [walFind, List.find?_cons, hk]

theorem walPush_eq_none (w : WalMap) (tid : String) (m : Mutation)
    (h : walFind w tid = none) : walPush w tid m = none := by
  induction w with
  | nil => rfl
  | cons p rest ih =>
    obtain ⟨k, ms⟩ := p
    cases hk : (k == tid) with
    | true => rw [walFind_cons_pos hk] at h; exact absurd h (by simp)
    | false =>
      rw [walFind_cons_neg hk] at h
      unfold walPush
      rw [hk]
      simp [ih h]

theorem walRemove_eq_none (w : WalMap) (tid : String)
    (h : walFind w tid = none) : walRemove w tid = none := by
  induction w with
  | nil => rfl
  | cons p rest ih =>
    obtain ⟨k, ms⟩ := p
    cases hk : (k == tid) with
    | true => rw [walFind_cons_pos hk] at h; exact absurd h (by simp)
    | false =>
      rw [walFind_cons_neg hk] at h
      unfold walRemove
      rw [hk]
      simp [ih h]

theorem walPush_of_find (w : WalMap) (id : String) (ms : List Mutation)
    (m : Mutation) (h : walFind w id = some ms) :
    ∃ w2, walPush w id m = some w2 ∧
      walFind w2 id = some (ms ++ [m]) ∧
      ∀ t, t ≠ id → walFind w2 t = walFind w t := by
  induction w with
  | nil => exact absurd h (by simp [walFind])
  | cons p rest ih =>
    obtain ⟨k, l⟩ := p
    cases hk : (k == id) with
    | true =>
      rw [walFind_cons_pos hk] at h
      have hl : l = ms := by simpa using h
      subst hl
      refine ⟨(k, l ++ [m]) :: rest, ?_, ?_, ?_⟩
      · unfold walPush
        rw [hk]
        rfl
      · exact walFind_cons_pos hk _ _
      · intro t ht
        have hkid : k = id := by simpa using hk
        have hkt : (k == t) = false := by
          simp [hkid]
          exact fun e => ht e.symm
        rw [walFind_cons_neg hkt, walFind_cons_neg hkt]
    | false =>
      rw [walFind_cons_neg hk] at h
      obtain ⟨w2, hpush, hfind, hother⟩ := ih h
      refine ⟨(k, l) :: w2, ?_, ?_, ?_⟩
      · unfold walPush
        rw [hk]
        simp [hpush]
      · rw [walFind_cons_neg hk]
        exact hfind
      · intro t ht
        cases hkt : (k == t) with
        | true =>
          rw [walFind_cons_pos hkt, walFind_cons_pos hkt]
        | false =>
          rw [walFind_cons_neg hkt, walFind_cons_neg hkt]
          exact hother t ht

theorem walRemove_of_find (w : WalMap) (id : String) (ms : List Mutation)
    (h : walFind w id = some ms) :
    ∃ w2, walRemove w id = some (ms, w2) := by
  induction w with
  | nil => exact absurd h (by simp [walFind])
  | cons p rest ih =>
    obtain ⟨k, l⟩ := p
    cases hk : (k == id) with
    | true =>
      rw [walFind_cons_pos hk] at h
      have hl : l = ms := by simpa using h
      subst hl
      exact ⟨rest, by unfold walRemove; rw [hk]; rfl⟩
    | false =>
      rw [walFind_cons_neg hk] at h
      obtain ⟨w2, hrem⟩ := ih h
      exact ⟨(k, l) :: w2, by unfold walRemove; rw [hk]; simp [hrem]⟩

/-- C2 (code bug): `Wal::get` scans the staged mutation list in storage
order — oldest first — and answers from the FIRST mutation naming the
key.  With `Put k v1` staged before `Put k v2`, it returns `v1`, not the
most recently staged `v2` the spec requires (read-your-writes is broken:
committing this transaction would leave `v2` in the engine). -/
theorem wal_get_answers_from_oldest_mutation :
    walGet [("t", [Mutation.Put "k" "v1", Mutation.Put "k" "v2"])]
      "t" "k" = some (some "v1") ∧ "v1" ≠ "v2" := by
  constructor
  · rfl
  · decide

/-- C9: `Wal::get` with a transaction id absent from the WAL map returns
`None` (indistinguishable from “no staged mutation”, so the caller falls
through to the hash engine) and never an error, while `Wal::mutate` with
an unknown id returns `Err(())` and leaves the WAL map unchanged (the
error branch touches nothing; `walPush` yields no updated map). -/
theorem wal_unknown_tid_get_none_mutate_error (w : WalMap)
    (tid key : String) (m : Mutation) (h : walFind w tid = none) :
    walGet w tid key = none ∧
    walMutate w tid m = .error () ∧
    walPush w tid m = none := by
  have hp := walPush_eq_none w tid m h
  refine ⟨?_, ?_, hp⟩
  · unfold walGet
    rw [h]
  · unfold walMutate
    rw [hp]

/-- Witness for `wal_unknown_tid_get_none_mutate_error` at the WAL
`[("a", [])]` and the unknown id `"b"`. -/
theorem wal_unknown_tid_witness :
    walGet [("a", [])] "b" "k" = none ∧
    walMutate [("a", [])] "b" (Mutation.Put "x" "y") = .error () ∧
    walPush [("a", [])] "b" (Mutation.Put "x" "y") = none :=
  wal_unknown_tid_get_none_mutate_error [("a", [])] "b" "k"
    (Mutation.Put "x" "y") (by decide)

theorem executeCommand_some_put (hashFn : List Nat → Nat) (fuel : Nat)
    (fid : String) (s : HashStorage) (w : WalMap) (id k v : String) :
    executeCommand hashFn fuel fid s w (some id) (.Put k v) =
      (match walMutate w id (.Put k v) with
        | .ok w2 => some (.ok .Put, s, w2)
        | .error _ => none) := rfl

theorem executeCommand_some_delete (hashFn : List Nat → Nat) (fuel : Nat)
    (fid : String) (s : HashStorage) (w : WalMap) (id k : String) :
    executeCommand hashFn fuel fid s w (some id) (.Delete k) =
      (match walMutate w id (.Delete k) with
        | .ok w2 => some (.ok .Delete, s, w2)
        | .error _ => none) := rfl

/-- The result and engine state of a GET with no active transaction do
not depend on the WAL: both route straight to the engine. -/
theorem executeCommand_get_outside_proj (hashFn : List Nat → Nat)
    (fuel : Nat) (fid : String) (s : HashStorage) (w w2 : WalMap)
    (kq : String) :
    ((executeCommand hashFn fuel fid s w2 none (.Get kq)).map
      fun r => (r.1, r.2.1)) =
    ((executeCommand hashFn fuel fid s w none (.Get kq)).map
      fun r => (r.1, r.2.1)) := by
  show ((executeEngine hashFn fuel fid s w2 none (.Get kq)).map
      fun r => (r.1, r.2.1)) =
    ((executeEngine hashFn fuel fid s w none (.Get kq)).map
      fun r => (r.1, r.2.1))
  simp only [executeEngine]
  cases s.handle_cmd hashFn fuel (.Get kq) with
  | none => rfl
  | some p => rfl

theorem executeCommand_none_eq (hashFn : List Nat → Nat) (fuel : Nat)
    (fid : String) (s : HashStorage) (w : WalMap) (cmd : UserCommand) :
    executeCommand hashFn fuel fid s w none cmd =
      executeEngine hashFn fuel fid s w none cmd := rfl

theorem executeCommand_some_commit (hashFn : List Nat → Nat) (fuel : Nat)
    (fid : String) (s : HashStorage) (w : WalMap) (id : String) :
    executeCommand hashFn fuel fid s w (some id) .Commit =
      executeEngine hashFn fuel fid s w (some id) .Commit := rfl

theorem executeCommand_some_rollback (hashFn : List Nat → Nat)
    (fuel : Nat) (fid : String) (s : HashStorage) (w : WalMap)
    (id : String) :
    executeCommand hashFn fuel fid s w (some id) .Rollback =
      executeEngine hashFn fuel fid s w (some id) .Rollback := rfl

/-- C10: COMMIT or ROLLBACK with no active transaction id (the handler
then looks up the empty string, never a WAL key, since every key is a
generated UUID) or with an id unknown to the WAL returns the error
`"Not in a transaction"` and leaves both the WAL map and the engine state
unchanged: no mutation is applied and no transaction entry is removed. -/
theorem commit_rollback_outside_transaction (hashFn : List Nat → Nat)
    (fuel : Nat) (fid : String) (s : HashStorage) (w : WalMap)
    (tid : Option String) (h : walFind w (tid.getD "") = none) :
    executeCommand hashFn fuel fid s w tid .Commit =
      some (.error "Not in a transaction", s, w) ∧
    executeCommand hashFn fuel fid s w tid .Rollback =
      some (.error "Not in a transaction", s, w) := by
  have hr := walRemove_eq_none w (tid.getD "") h
  cases tid with
  | none =>
    refine ⟨?_, ?_⟩
    · rw [executeCommand_none_eq]
      unfold executeEngine
      rw [hr]
    · rw [executeCommand_none_eq]
      unfold executeEngine
      rw [hr]
  | some id =>
    refine ⟨?_, ?_⟩
    · rw [executeCommand_some_commit]
      unfold executeEngine
      rw [hr]
    · rw [executeCommand_some_rollback]
      unfold executeEngine
      rw [hr]

/-- Witness for `commit_rollback_outside_transaction`: no active id,
WAL holding one transaction `"t"`, fresh engine. -/
theorem commit_rollback_outside_transaction_witness :
    executeCommand (fun _ => 0) 1 "u" freshEngine [("t", [])] none
        .Commit =
      some (.error "Not in a transaction", freshEngine, [("t", [])]) ∧
    executeCommand (fun _ => 0) 1 "u" freshEngine [("t", [])] none
        .Rollback =
      some (.error "Not in a transaction", freshEngine, [("t", [])]) :=
  commit_rollback_outside_transaction (fun _ => 0) 1 "u" freshEngine
    [("t", [])] none (by decide)

/-- C6: while a transaction id is active (present in the WAL), PUT and
DELETE only append the mutation to that transaction's WAL list — the
engine state (directory, global level, bucket count and every bucket
page) is returned unchanged, and other transactions' lists are untouched.
A GET with no active transaction routed after the staging yields the same
result and engine state as before it, and the same holds after ROLLBACK
of the transaction. -/
theorem transaction_put_delete_staged_only (hashFn : List Nat → Nat)
    (fuel : Nat) (fid : String) (s : HashStorage) (w : WalMap)
    (id k v kq : String) (ms : List Mutation)
    (h : walFind w id = some ms) :
    (∃ w2,
      executeCommand hashFn fuel fid s w (some id) (.Put k v) =
        some (.ok .Put, s, w2) ∧
      walFind w2 id = some (ms ++ [Mutation.Put k v]) ∧
      (∀ t, t ≠ id → walFind w2 t = walFind w t) ∧
      ((executeCommand hashFn fuel fid s w2 none (.Get kq)).map
          fun r => (r.1, r.2.1)) =
        ((executeCommand hashFn fuel fid s w none (.Get kq)).map
          fun r => (r.1, r.2.1)) ∧
      ∃ w3,
        executeCommand hashFn fuel fid s w2 (some id) .Rollback =
          some (.ok .Rollback, s, w3) ∧
        ((executeCommand hashFn fuel fid s w3 none (.Get kq)).map
            fun r => (r.1, r.2.1)) =
          ((executeCommand hashFn fuel fid s w none (.Get kq)).map
            fun r => (r.1, r.2.1))) ∧
    (∃ w4,
      executeCommand hashFn fuel fid s w (some id) (.Delete k) =
        some (.ok .Delete, s, w4) ∧
      walFind w4 id = some (ms ++ [Mutation.Delete k]) ∧
      ∀ t, t ≠ id → walFind w4 t = walFind w t) := by
  constructor
  · obtain ⟨w2, hpush, hfind, hother⟩ :=
      walPush_of_find w id ms (.Put k v) h
    have hm : walMutate w id (Mutation.Put k v) = .ok w2 := by
      unfold walMutate
      rw [hpush]
    obtain ⟨w3, hrem⟩ := walRemove_of_find w2 id _ hfind
    refine ⟨w2, ?_, hfind, hother, ?_, w3, ?_, ?_⟩
    · rw [executeCommand_some_put, hm]
    · exact executeCommand_get_outside_proj ..
    · rw [executeCommand_some_rollback]
      unfold executeEngine
      simp only [Option.getD_some]
      rw [hrem]
    · exact executeCommand_get_outside_proj ..
  · obtain ⟨w4, hpush, hfind, hother⟩ :=
      walPush_of_find w id ms (.Delete k) h
    have hm : walMutate w id (Mutation.Delete k) = .ok w4 := by
      unfold walMutate
      rw [hpush]
    refine ⟨w4, ?_, hfind, hother⟩
    rw [executeCommand_some_delete, hm]

/-- Witness for `transaction_put_delete_staged_only`: fresh engine, WAL
holding the single open transaction `"t"` with no staged mutations. -/
theorem transaction_put_delete_staged_only_witness :
    (∃ w2,
      executeCommand (fun _ => 0) 1 "u" freshEngine [("t", [])]
          (some "t") (.Put "k" "v") =
        some (.ok .Put, freshEngine, w2) ∧
      walFind w2 "t" = some ([] ++ [Mutation.Put "k" "v"]) ∧
      (∀ t, t ≠ "t" → walFind w2 t = walFind [("t", [])] t) ∧
      ((executeCommand (fun _ => 0) 1 "u" freshEngine w2 none
          (.Get "q")).map fun r => (r.1, r.2.1)) =
        ((executeCommand (fun _ => 0) 1 "u" freshEngine [("t", [])] none
          (.Get "q")).map fun r => (r.1, r.2.1)) ∧
      ∃ w3,
        executeCommand (fun _ => 0) 1 "u" freshEngine w2 (some "t")
            .Rollback =
          some (.ok .Rollback, freshEngine, w3) ∧
        ((executeCommand (fun _ => 0) 1 "u" freshEngine w3 none
            (.Get "q")).map fun r => (r.1, r.2.1)) =
          ((executeCommand (fun _ => 0) 1 "u" freshEngine [("t", [])] none
            (.Get "q")).map fun r => (r.1, r.2.1))) ∧
    (∃ w4,
      executeCommand (fun _ => 0) 1 "u" freshEngine [("t", [])]
          (some "t") (.Delete "k") =
        some (.ok .Delete, freshEngine, w4) ∧
      walFind w4 "t" = some ([] ++ [Mutation.Delete "k"]) ∧
      ∀ t, t ≠ "t" → walFind w4 t = walFind [("t", [])] t) :=
  transaction_put_delete_staged_only (fun _ => 0) 1 "u" freshEngine
    [("t", [])] "t" "k" "v" "q" [] (by decide)

/-! ## On-disk byte layout of the two files (claims C4 and C8)

Files are byte lists.  `writeAt` models Rust's seek-then-`write_all`
(seeking past the end leaves a zero gap), `readAt` models
seek-then-`read_exact` (`none` when the file is too short, a panic). -/

/-- Overwrite `bytes` into `file` at byte offset `off`, zero-padding when
`off` is past the current end of the file. -/
def writeAt (file : List Nat) (off : Nat) (bytes : List Nat) : List Nat :=
  file.take off ++ List.replicate (off - (file.take off).length) 0
    ++ bytes ++ file.drop (off + bytes.length)

/-- Read exactly `n` bytes at offset `off`; `none` when the file is too
short (Rust's `read_exact` would fail and the caller `unwrap`s). -/
def readAt (file : List Nat) (off n : Nat) : Option (List Nat) :=
  if off + n ≤ file.length then some ((file.drop off).take n) else none

/-- The byte offset of bucket page `k` in the buckets file
(`BUCKET_INDEX_TYPE_BYTES + bucket_index * PAGE_BYTES`, the seek both
`Bucket::read_from_file` and `Bucket::save_to_file` perform). -/
def bucketPageOffset (k : Nat) : Nat :=
  BUCKET_INDEX_TYPE_BYTES + k * PAGE_BYTES

/-- `save_buckets_file`: write the bucket count little-endian at offset 0
(an 8-byte `usize` on the 64-bit target). -/
def save_buckets_file (count : Nat) (file : List Nat) : List Nat :=
  writeAt file 0 (natToLeBytes BUCKET_INDEX_TYPE_BYTES count)

/-- The 4096-byte page image `Bucket::save_to_file` builds: the level
byte, the records' serializations packed from offset 1, zero fill. -/
def Bucket.page_bytes (b : Bucket) : List Nat :=
  let recBytes := (b.records.map Record.into_bytes).flatten
  [b.level % 256] ++ recBytes
    ++ List.replicate (PAGE_BYTES - BUCKET_HEADER_BYTES - recBytes.length) 0

/-- `Bucket::save_to_file`: write the page image at the bucket's offset;
`none` when the records overflow the 4096-byte buffer (an out-of-bounds
write panic in Rust). -/
def Bucket.save_to_file (b : Bucket) (file : List Nat) :
    Option (List Nat) :=
  if BUCKET_HEADER_BYTES
      + ((b.records.map Record.into_bytes).flatten).length ≤ PAGE_BYTES
  then some (writeAt file (bucketPageOffset b.bucket_index) b.page_bytes)
  else none

/-- The seek-and-read of `Bucket::read_from_file`: fetch page `k`'s 4096
bytes. -/
def Bucket.read_page (file : List Nat) (k : Nat) : Option (List Nat) :=
  readAt file (bucketPageOffset k) PAGE_BYTES

/-- `load_buckets_file`: on an empty file, write one empty bucket at
index 0 and report bucket count 1 (the count header itself is only
written later by `save_buckets_file`); otherwise read the count from the
first `BUCKET_INDEX_TYPE_BYTES` bytes. -/
def load_buckets_file (file : List Nat) : Option (Nat × List Nat) :=
  if file.length = 0 then
    ((Bucket.mk 0 0 0 []).save_to_file file).map fun f2 => (1, f2)
  else
    (readAt file 0 BUCKET_INDEX_TYPE_BYTES).map fun b =>
      (natFromLeBytes b, file)

/-- `addr_count_to_global_level`: the position of the most significant
bit of the directory length (`while length > 1 { length >>= 1; result += 1 }`). -/
def addr_count_to_global_level (n : Nat) : Nat :=
  if n > 1 then addr_count_to_global_level (n / 2) + 1 else 0

/-- `save_directory`: from offset 0, write the global level derived from
the directory length as one byte, then every entry as 8 little-endian
bytes. -/
def save_directory (vec : List Nat) (file : List Nat) : List Nat :=
  writeAt file 0 ([addr_count_to_global_level vec.length % 256]
    ++ (vec.map (natToLeBytes BUCKET_INDEX_TYPE_BYTES)).flatten)

/-- `load_directory`: an empty file yields directory `[0]` at global
level 0; otherwise read the global-level byte and then `2^G` eight-byte
little-endian entries. -/
def load_directory (file : List Nat) : Option (List Nat × Nat) :=
  if file.length = 0 then some ([0], 0)
  else
    (readAt file 0 BUCKET_LEVEL_BYTES).bind fun gbuf =>
      let g := natFromLeBytes gbuf
      (readAt file BUCKET_LEVEL_BYTES
        (2 ^ g * BUCKET_INDEX_TYPE_BYTES)).map fun buf =>
          ((List.range (2 ^ g)).map fun i =>
            natFromLeBytes ((buf.drop (BUCKET_INDEX_TYPE_BYTES * i)).take
              BUCKET_INDEX_TYPE_BYTES), g)

/-- `HashStorage::exit`: save the directory into the directory file and
the bucket count into the buckets file (and fsync both). -/
def HashStorage.exit (s : HashStorage) (dirFile bucketsFile : List Nat) :
    List Nat × List Nat :=
  (save_directory s.bucket_lookup dirFile,
    save_buckets_file s.bucket_count bucketsFile)

theorem writeAt_zero (file bs : List Nat) :
    writeAt file 0 bs = bs ++ file.drop bs.length := by
  simp [writeAt]

theorem writeAt_eq (file : List Nat) (off : Nat) (bs : List Nat) :
    ∃ pre, pre.length = off ∧
      writeAt file off bs = pre ++ bs ++ file.drop (off + bs.length) := by
  refine ⟨file.take off
    ++ List.replicate (off - (file.take off).length) 0, ?_, ?_⟩
  · simp [List.length_take]
  · simp [writeAt]

theorem readAt_writeAt (file : List Nat) (off : Nat) (bs : List Nat) :
    readAt (writeAt file off bs) off bs.length = some bs := by
  obtain ⟨pre, hpre, heq⟩ := writeAt_eq file off bs
  rw [heq]
  unfold readAt
  rw [if_pos (by simp [hpre])]
  rw [List.append_assoc, List.drop_left' hpre, List.take_left' rfl]

theorem page_bytes_length (b : Bucket)
    (h : BUCKET_HEADER_BYTES
      + ((b.records.map Record.into_bytes).flatten).length ≤ PAGE_BYTES) :
    b.page_bytes.length = PAGE_BYTES := by
  simp only [Bucket.page_bytes, List.length_append, List.length_cons,
    List.length_nil, List.length_replicate]
  simp only [BUCKET_HEADER_BYTES, BUCKET_LEVEL_BYTES, PAGE_BYTES] at h ⊢
  omega

/-- C4 counterexample: the buckets-file header is not a 4-byte `u32` and
bucket 0 does not live at offset 4.  Writing bucket count 1 into an empty
file yields an 8-byte header (`usize` on the 64-bit target), not the
4-byte `[1,0,0,0]` the claim implies, and the page offset of bucket 0 is
8, not `4 + 0*4096`. -/
theorem buckets_header_u32_counterexample :
    save_buckets_file 1 [] ≠ [1, 0, 0, 0] ∧
    bucketPageOffset 0 ≠ 4 + 0 * 4096 := by
  decide

/-- C4 (amended): the first 8 bytes of the buckets file hold
`bucket_count` as a little-endian `usize` (8 bytes on the 64-bit
target), bucket `k` is read and written at byte offset `8 + k * 4096`,
and an empty buckets file is initialized by writing one empty bucket at
index 0 — a 4104-byte file whose page 0 parses back — with the reported
bucket count becoming 1. -/
theorem buckets_file_layout (count : Nat) (file : List Nat) (k : Nat)
    (b : Bucket) (f2 : List Nat) (hb : b.save_to_file file = some f2) :
    (save_buckets_file count file).take 8 = natToLeBytes 8 count ∧
    bucketPageOffset k = 8 + k * 4096 ∧
    Bucket.read_page f2 b.bucket_index = some b.page_bytes ∧
    (∃ f0, load_buckets_file [] = some (1, f0) ∧
      Bucket.read_page f0 0 = some (Bucket.mk 0 0 0 []).page_bytes ∧
      f0.length = 8 + 4096) := by
  refine ⟨?_, ?_, ?_, ?_⟩
  · unfold save_buckets_file
    rw [writeAt_zero]
    exact List.take_left' (natToLeBytes_length _ _)
  · simp [bucketPageOffset, BUCKET_INDEX_TYPE_BYTES, PAGE_BYTES]
  · unfold Bucket.save_to_file at hb
    by_cases hc : BUCKET_HEADER_BYTES
        + ((b.records.map Record.into_bytes).flatten).length ≤ PAGE_BYTES
    · rw [if_pos hc] at hb
      have hf2 : f2 = writeAt file (bucketPageOffset b.bucket_index)
          b.page_bytes := by
        exact (Option.some.injEq _ _ ▸ hb).symm
      rw [hf2]
      unfold Bucket.read_page
      rw [show PAGE_BYTES = b.page_bytes.length from
        (page_bytes_length b hc).symm]
      exact readAt_writeAt ..
    · rw [if_neg hc] at hb
      exact absurd hb (by simp)
  · refine ⟨writeAt [] (bucketPageOffset 0) (Bucket.mk 0 0 0 []).page_bytes,
      rfl, ?_, ?_⟩
    · unfold Bucket.read_page
      rw [show PAGE_BYTES = (Bucket.mk 0 0 0 []).page_bytes.length from
        (page_bytes_length _ (by decide)).symm]
      exact readAt_writeAt ..
    · obtain ⟨pre, hpre, heq⟩ := writeAt_eq [] (bucketPageOffset 0)
        (Bucket.mk 0 0 0 []).page_bytes
      rw [heq]
      simp [hpre, page_bytes_length (Bucket.mk 0 0 0 []) (by decide),
        bucketPageOffset, BUCKET_INDEX_TYPE_BYTES, PAGE_BYTES]

/-- Witness for `buckets_file_layout`: count 3, an empty file, bucket
index 2, the empty bucket 0 written to the empty file. -/
theorem buckets_file_layout_witness :
    (save_buckets_file 3 []).take 8 = natToLeBytes 8 3 ∧
    bucketPageOffset 2 = 8 + 2 * 4096 ∧
    Bucket.read_page
        (writeAt [] (bucketPageOffset 0) (Bucket.mk 0 0 0 []).page_bytes)
        (Bucket.mk 0 0 0 []).bucket_index =
      some (Bucket.mk 0 0 0 []).page_bytes ∧
    (∃ f0, load_buckets_file [] = some (1, f0) ∧
      Bucket.read_page f0 0 = some (Bucket.mk 0 0 0 []).page_bytes ∧
      f0.length = 8 + 4096) :=
  buckets_file_layout 3 [] 2 (Bucket.mk 0 0 0 [])
    (writeAt [] (bucketPageOffset 0) (Bucket.mk 0 0 0 []).page_bytes)
    (by rfl)

theorem addr_count_pow (g : Nat) :
    addr_count_to_global_level (2 ^ g) = g := by
  induction g with
  | zero => simp [addr_count_to_global_level]
  | succ g ih =>
    unfold addr_count_to_global_level
    rw [if_pos (Nat.one_lt_pow (by omega) (by omega))]
    rw [Nat.pow_succ, Nat.mul_div_cancel _ (by omega), ih]

theorem flatten_enc_length (vec : List Nat) :
    ((vec.map (natToLeBytes 8)).flatten).length = 8 * vec.length := by
  induction vec with
  | nil => rfl
  | cons x xs ih =>
    simp [natToLeBytes_length, ih]
    ring

theorem parse_entries (vec : List Nat) (h : ∀ x ∈ vec, x < 2 ^ 64) :
    (List.range vec.length).map (fun i =>
      natFromLeBytes ((((vec.map (natToLeBytes 8)).flatten).drop
        (8 * i)).take 8)) = vec := by
  induction vec with
  | nil => rfl
  | cons x xs ih =>
    have hx : x < 256 ^ 8 := by
      have := h x (by simp)
      norm_num at this ⊢
      omega
    have hxs : ∀ y ∈ xs, y < 2 ^ 64 := fun y hy => h y (by simp [hy])
    have hflat : ((x :: xs).map (natToLeBytes 8)).flatten =
        natToLeBytes 8 x ++ (xs.map (natToLeBytes 8)).flatten := by
      simp
    show (List.range (xs.length + 1)).map _ = x :: xs
    rw [List.range_succ_eq_map, List.map_cons, List.map_map]
    refine congrArg₂ List.cons ?_ ?_
    · rw [hflat]
      simp only [Nat.mul_zero, List.drop_zero]
      rw [List.take_left' (natToLeBytes_length 8 x)]
      exact natFromLeBytes_natToLeBytes 8 x hx
    · refine Eq.trans (List.map_congr_left ?_) (ih hxs)
      intro i _
      simp only [Function.comp_apply]
      rw [hflat]
      have hdrop : (natToLeBytes 8 x
          ++ (xs.map (natToLeBytes 8)).flatten).drop (8 * Nat.succ i) =
          ((xs.map (natToLeBytes 8)).flatten).drop (8 * i) := by
        rw [show 8 * Nat.succ i = 8 + 8 * i by omega, ← List.drop_drop,
          List.drop_left' (natToLeBytes_length 8 x)]
      rw [hdrop]

theorem load_save_directory (vec : List Nat) (file : List Nat) (g : Nat)
    (hlen : vec.length = 2 ^ g) (hg : g < 256)
    (hx : ∀ x ∈ vec, x < 2 ^ 64) :
    load_directory (save_directory vec file) = some (vec, g) := by
  have hE : ((vec.map (natToLeBytes BUCKET_INDEX_TYPE_BYTES)).flatten).length
      = 2 ^ g * BUCKET_INDEX_TYPE_BYTES := by
    show ((vec.map (natToLeBytes 8)).flatten).length = 2 ^ g * 8
    rw [flatten_enc_length, hlen]
    ring
  have hfile : save_directory vec file =
      g :: ((vec.map (natToLeBytes BUCKET_INDEX_TYPE_BYTES)).flatten
        ++ file.drop (2 ^ g * BUCKET_INDEX_TYPE_BYTES + 1)) := by
    unfold save_directory
    rw [writeAt_zero]
    rw [show addr_count_to_global_level vec.length = g by
      rw [hlen]; exact addr_count_pow g]
    rw [Nat.mod_eq_of_lt hg]
    simp [hE]
  have h1 : readAt (save_directory vec file) 0 BUCKET_LEVEL_BYTES =
      some [g] := by
    rw [hfile]
    unfold readAt
    rw [if_pos (by simp [BUCKET_LEVEL_BYTES])]
    rfl
  have h2 : readAt (save_directory vec file) BUCKET_LEVEL_BYTES
      (2 ^ g * BUCKET_INDEX_TYPE_BYTES) =
      some ((vec.map (natToLeBytes BUCKET_INDEX_TYPE_BYTES)).flatten) := by
    rw [hfile]
    unfold readAt
    rw [if_pos (by
      show BUCKET_LEVEL_BYTES + 2 ^ g * BUCKET_INDEX_TYPE_BYTES ≤ _
      simp only [List.length_cons, List.length_append, hE,
        BUCKET_LEVEL_BYTES]
      omega)]
    show some ((((vec.map (natToLeBytes BUCKET_INDEX_TYPE_BYTES)).flatten
      ++ file.drop (2 ^ g * BUCKET_INDEX_TYPE_BYTES + 1)).take
        (2 ^ g * BUCKET_INDEX_TYPE_BYTES))) = _
    rw [List.take_left' hE]
  have h0 : (save_directory vec file).length ≠ 0 := by
    rw [hfile]
    simp
  unfold load_directory
  rw [if_neg h0, h1]
  simp only [Option.some_bind]
  rw [show natFromLeBytes [g] = g by simp [natFromLeBytes]]
  rw [h2]
  simp only [Option.map_some']
  rw [show (2 : Nat) ^ g = vec.length from hlen.symm]
  rw [show (fun i => natFromLeBytes
      ((((vec.map (natToLeBytes BUCKET_INDEX_TYPE_BYTES)).flatten).drop
        (BUCKET_INDEX_TYPE_BYTES * i)).take BUCKET_INDEX_TYPE_BYTES)) =
      (fun i => natFromLeBytes
        ((((vec.map (natToLeBytes 8)).flatten).drop (8 * i)).take 8))
    from rfl]
  rw [parse_entries vec hx]

theorem load_save_buckets_count (count : Nat) (file : List Nat)
    (h : count < 2 ^ 64) :
    load_buckets_file (save_buckets_file count file) =
      some (count, save_buckets_file count file) := by
  have hfile : save_buckets_file count file =
      natToLeBytes 8 count ++ file.drop 8 := by
    unfold save_buckets_file
    rw [writeAt_zero]
    show natToLeBytes 8 count
      ++ file.drop (natToLeBytes 8 count).length = _
    rw [natToLeBytes_length]
  have h0 : (save_buckets_file count file).length ≠ 0 := by
    rw [hfile]
    simp [natToLeBytes_length]
  have h1 : readAt (save_buckets_file count file) 0
      BUCKET_INDEX_TYPE_BYTES = some (natToLeBytes 8 count) := by
    rw [hfile]
    unfold readAt
    rw [if_pos (by simp [natToLeBytes_length, BUCKET_INDEX_TYPE_BYTES])]
    rw [List.drop_zero]
    show some ((natToLeBytes 8 count ++ file.drop 8).take 8) =
      some (natToLeBytes 8 count)
    rw [List.take_left' (natToLeBytes_length 8 count)]
  unfold load_buckets_file
  rw [if_neg h0, h1]
  simp only [Option.map_some']
  rw [natFromLeBytes_natToLeBytes 8 count (by norm_num at h ⊢; omega)]

/-- C8: for every engine state whose directory length is `2^G` (with `G`
below 256 as the `u8` global level guarantees, directory entries and the
bucket count below `2^64` as their `usize` types guarantee), EXIT writes
the directory vector, the global level and the bucket count to the two
files, and reloading those files recovers the directory vector, the
global level and the bucket count exactly. -/
theorem exit_reopen_roundtrip (s : HashStorage)
    (dirFile bucketsFile : List Nat)
    (hlen : s.bucket_lookup.length = 2 ^ s.global_level)
    (hg : s.global_level < 256)
    (hx : ∀ x ∈ s.bucket_lookup, x < 2 ^ 64)
    (hc : s.bucket_count < 2 ^ 64) :
    load_directory (s.exit dirFile bucketsFile).1 =
      some (s.bucket_lookup, s.global_level) ∧
    (load_buckets_file (s.exit dirFile bucketsFile).2).map Prod.fst =
      some s.bucket_count := by
  constructor
  · exact load_save_directory s.bucket_lookup dirFile s.global_level
      hlen hg hx
  · show (load_buckets_file
      (save_buckets_file s.bucket_count bucketsFile)).map Prod.fst = _
    rw [load_save_buckets_count s.bucket_count bucketsFile hc]
    rfl

/-- Witness for `exit_reopen_roundtrip` at the state of the
`exit_save_load` test: directory `[1,5,6,7,2,4,7,8]`, global level 3,
bucket count 8, both files empty. -/
theorem exit_reopen_roundtrip_witness :
    load_directory ((HashStorage.mk 8 3 [1, 5, 6, 7, 2, 4, 7, 8] []).exit
        [] []).1 = some ([1, 5, 6, 7, 2, 4, 7, 8], 3) ∧
    (load_buckets_file ((HashStorage.mk 8 3 [1, 5, 6, 7, 2, 4, 7, 8]
        []).exit [] []).2).map Prod.fst = some 8 :=
  exit_reopen_roundtrip (HashStorage.mk 8 3 [1, 5, 6, 7, 2, 4, 7, 8] [])
    [] [] (by decide) (by decide) (by decide) (by decide)

end SillyKV
